import Mathlib

/-!
Verification of the srsLTE NR PDCP entity specification and of the srslog
backend worker.

The PDCP entity operations (`derive_count`, header pack/unpack, `write_sdu`,
`write_pdu`, `reestablish`, ...) are declared in
`lib/include/srslte/upper/pdcp_entity_nr.h`, but their implementation is not
part of the provided sources; those operations are modelled from the
specification (sections 3, 4.1, 4.3, 4.4).  The srslog backend worker is
modelled from `lib/src/srslog/backend_worker.cpp`, which is fully present.
-/

namespace PdcpNr

/-- Modulus of the 32-bit unsigned counters (`uint32_t`). -/
def U32 : Nat := 2 ^ 32

/-- Opaque SDU byte payload. -/
abbrev Sdu := List Nat

/-- Modelled from the spec: the implementation of COUNT derivation used by
`pdcp_entity_nr::write_pdu` is missing from the sources (only the class
declaration is present), so `derive_count` follows spec section 4.3 verbatim:
window = 2^(snLenBits-1); rxHfn = rxDeliv >> snLenBits;
curSn = rxDeliv & (2^snLenBits - 1);
if receivedSn < curSn - window then hfn = rxHfn + 1
else if receivedSn >= curSn + window then hfn = rxHfn - 1
else hfn = rxHfn; count = (hfn << snLenBits) | receivedSn, computed modulo
2^32 with HFN underflow at 0 wrapping.  The first comparison is a signed
comparison (curSn - window may be negative), as forced by the spec's own
worked example (receivedSn=500, rxDeliv=5000 gives hfn = rxHfn). -/
def derive_count (receivedSn rxDeliv snLenBits : Nat) : Nat :=
  let window := 2 ^ (snLenBits - 1)
  let rxHfn := rxDeliv >>> snLenBits
  let curSn := rxDeliv &&& (2 ^ snLenBits - 1)
  let hfn : Nat :=
    if (receivedSn : Int) < (curSn : Int) - (window : Int) then
      (rxHfn + 1) % U32
    else if curSn + window ≤ receivedSn then
      (rxHfn + (U32 - 1)) % U32
    else
      rxHfn
  ((hfn <<< snLenBits) ||| receivedSn) % U32

/-- A bitwise or with disjoint low bits is an addition. -/
lemma two_pow_mul_lor {k b : Nat} (a : Nat) (hb : b < 2 ^ k) :
    (2 ^ k * a) ||| b = 2 ^ k * a + b :=
  (Nat.mul_add_lt_is_or hb a).symm

/-- C1: for SN_LEN_BITS in {12,18}, any received SN below 2^SN_LEN_BITS and
any 32-bit rxDeliv, `derive_count` yields a COUNT in the half-open modular
interval [rxDeliv - window, rxDeliv + window) of width 2*window,
window = 2^(SN_LEN_BITS-1), all arithmetic modulo 2^32.  Determinism is
immediate because `derive_count` is a pure function of its arguments. -/
theorem derive_count_within_window (receivedSn rxDeliv snLenBits : Nat)
    (hbits : snLenBits = 12 ∨ snLenBits = 18)
    (hsn : receivedSn < 2 ^ snLenBits) (hdeliv : rxDeliv < U32) :
    ((derive_count receivedSn rxDeliv snLenBits : Int)
        - ((rxDeliv : Int) - 2 ^ (snLenBits - 1))) % 2 ^ 32
      < 2 * 2 ^ (snLenBits - 1) := by
  have hU : U32 = 2 ^ 32 := rfl
  rcases hbits with h | h <;> subst h <;>
    simp only [derive_count, U32, Nat.shiftRight_eq_div_pow, Nat.shiftLeft_eq,
      Nat.and_pow_two_sub_one_eq_mod] at * <;>
    split_ifs with h1 h2 <;>
    · rw [Nat.mul_comm, two_pow_mul_lor _ hsn]
      push_cast at *
      omega

/-- Witness for C1 at receivedSn = 3000, rxDeliv = 5000, SN_LEN_BITS = 12. -/
theorem derive_count_within_window_witness :
    ((derive_count 3000 5000 12 : Int) - ((5000 : Int) - 2 ^ (12 - 1))) % 2 ^ 32
      < 2 * 2 ^ (12 - 1) :=
  derive_count_within_window 3000 5000 12 (Or.inl rfl) (by norm_num)
    (by norm_num [U32])

/-- Modelled from the spec: the pack side of the header codec (spec section
4.3 / wire format section 6) is missing from the sources
(`pdcp_entity_nr.h` only announces "Pack/Unpack helper functions").
For SN_LEN_BITS = 12 the SN occupies the low 12 bits of a 2-byte big-endian
field (top nibble reserved, written as 0); for SN_LEN_BITS = 18 the SN
occupies the low 18 bits of a 3-byte field. -/
def pack (sn : Nat) (snLenBits : Nat) : List Nat :=
  if snLenBits = 12 then
    [(sn >>> 8) &&& (2 ^ 4 - 1), sn &&& (2 ^ 8 - 1)]
  else
    [(sn >>> 16) &&& (2 ^ 2 - 1), (sn >>> 8) &&& (2 ^ 8 - 1), sn &&& (2 ^ 8 - 1)]

/-- Modelled from the spec: the unpack side of the header codec, missing from
the sources.  A 2-byte field holds a 12-bit SN in its low 12 bits; a 3-byte
field holds an 18-bit SN in its low 18 bits; other byte counts are invalid
and decode to 0. -/
def unpack (bytes : List Nat) : Nat :=
  match bytes with
  | [b0, b1] => ((b0 &&& (2 ^ 4 - 1)) <<< 8) ||| (b1 &&& (2 ^ 8 - 1))
  | [b0, b1, b2] =>
      ((b0 &&& (2 ^ 2 - 1)) <<< 16) |||
        (((b1 &&& (2 ^ 8 - 1)) <<< 8) ||| (b2 &&& (2 ^ 8 - 1)))
  | _ => 0

/-- Round-trip of the header codec, shared helper. -/
lemma unpack_pack_eq (sn snLenBits : Nat)
    (hbits : snLenBits = 12 ∨ snLenBits = 18) (hsn : sn < 2 ^ snLenBits) :
    unpack (pack sn snLenBits) = sn := by
  have hs : ∀ k a b : Nat, b < 2 ^ k → (a <<< k) ||| b = a * 2 ^ k + b := by
    intro k a b hb
    rw [Nat.shiftLeft_eq, Nat.mul_comm a, two_pow_mul_lor _ hb, Nat.mul_comm]
  rcases hbits with h | h <;> subst h
  · simp only [pack, unpack, Nat.shiftRight_eq_div_pow,
      Nat.and_pow_two_sub_one_eq_mod, reduceIte]
    rw [hs 8 _ _ (by omega)]
    omega
  · simp only [pack, unpack, Nat.shiftRight_eq_div_pow,
      Nat.and_pow_two_sub_one_eq_mod, if_neg (by norm_num : ¬(18 = 12))]
    rw [hs 8 _ _ (by omega), hs 16 _ _ (by omega)]
    omega

/-- C8: header codec round trip: for every sn below 2^SN_LEN_BITS with
SN_LEN_BITS in {12,18}, unpacking the packed header recovers sn exactly
(12-bit SN in the low 12 bits of a 2-byte field, 18-bit SN in the low 18
bits of a 3-byte field). -/
theorem pack_unpack_roundtrip (sn snLenBits : Nat)
    (hbits : snLenBits = 12 ∨ snLenBits = 18) (hsn : sn < 2 ^ snLenBits) :
    unpack (pack sn snLenBits) = sn :=
  unpack_pack_eq sn snLenBits hbits hsn

/-- Witness for C8 at sn = 4095, SN_LEN_BITS = 12. -/
theorem pack_unpack_roundtrip_witness : unpack (pack 4095 12) = 4095 :=
  pack_unpack_roundtrip 4095 12 (Or.inl rfl) (by norm_num)

/-- Notifications surfaced to the upper layers by `write_pdu`. -/
inductive Notification
  | integrityFailure
  deriving Repr, DecidableEq

/-- Modelled from the spec: the per-bearer PDCP entity state.  The private
fields of `pdcp_entity_nr` (`lcid`, config, `tx_next`, `rx_next`,
`rx_deliv`, `rx_reord`, `window_size`) appear in `pdcp_entity_nr.h`; the
reordering buffer (spec sections 3 and 4.4, a mapping COUNT -> pending SDU)
and the security/diagnostic state are missing from the sources and modelled
from the spec.  The buffer is an association list keyed by COUNT;
`dupDropCount` is the diagnostic counter for duplicate/stale drops (spec
section 7). -/
structure Entity where
  lcid : Nat
  snLenBits : Nat
  windowSize : Nat
  txNext : Nat
  rxNext : Nat
  rxDeliv : Nat
  rxReord : Nat
  buffer : List (Nat × Sdu)
  securityConfigured : Bool
  integrityEnabled : Bool
  encryptionEnabled : Bool
  dupDropCount : Nat
  deriving Repr, DecidableEq

/-- Modelled from the spec: `init` (spec section 4.1) validates
SN_LEN_BITS in {12,18} (else ConfigError, here `none`), sets
window_size = 2^(SN_LEN_BITS-1) and zeroes the counters.  Collaborator
binding is outside the model. -/
def init (lcid snLenBits : Nat) : Option Entity :=
  if snLenBits = 12 ∨ snLenBits = 18 then
    some { lcid := lcid, snLenBits := snLenBits,
           windowSize := 2 ^ (snLenBits - 1),
           txNext := 0, rxNext := 0, rxDeliv := 0, rxReord := 0, buffer := [],
           securityConfigured := false, integrityEnabled := false,
           encryptionEnabled := false, dupDropCount := 0 }
  else none

/-- Modelled from the spec: `reset` halts pending discard timers and leaves
the counters unchanged (spec section 4.1); discard timers are outside the
model, so `reset` is the identity on the modelled state. -/
def reset (st : Entity) : Entity := st

/-- Modelled from the spec: `reestablish` zeroes TX_NEXT, RX_NEXT, RX_DELIV
and RX_REORD, clears the reordering buffer, retains lcid and the static
configuration, and makes security pending again (spec section 4.1). -/
def reestablish (st : Entity) : Entity :=
  { st with txNext := 0, rxNext := 0, rxDeliv := 0, rxReord := 0,
            buffer := [], securityConfigured := false,
            integrityEnabled := false, encryptionEnabled := false }

/-- Modelled from the spec: `config_security` installs the (opaque) key
material and algorithm identifiers (spec section 4.1); only the fact that
security is now configured is modelled. -/
def config_security (st : Entity) : Entity :=
  { st with securityConfigured := true }

/-- Modelled from the spec: `enable_integrity` is a no-op before
`config_security` (spec section 4.1). -/
def enable_integrity (st : Entity) : Entity :=
  if st.securityConfigured then { st with integrityEnabled := true } else st

/-- Modelled from the spec: `enable_encryption` is a no-op before
`config_security` (spec section 4.1). -/
def enable_encryption (st : Entity) : Entity :=
  if st.securityConfigured then { st with encryptionEnabled := true } else st

/-- On-wire PDU produced by `write_sdu`.  MAC computation and ciphering are
the opaque Security Context capability (spec section 4.2); only the COUNT
they are keyed by is recorded. -/
structure TxPdu where
  header : List Nat
  payload : Sdu
  count : Nat
  deriving Repr, DecidableEq

/-- Modelled from the spec: `pdcp_entity_nr::write_sdu` is declared in
`pdcp_entity_nr.h` but its implementation is missing; modelled from spec
section 4.1: assign SN = TX_NEXT mod 2^SN_LEN_BITS, build the header via
the codec, key the (opaque) MAC/ciphering by COUNT = TX_NEXT, increment
TX_NEXT (a 32-bit counter) and forward the PDU to the lower layer.  The
`blocking` flag only selects the backpressure policy and does not affect
the modelled state. -/
def write_sdu (st : Entity) (sdu : Sdu) : Entity × TxPdu :=
  let sn := st.txNext % 2 ^ st.snLenBits
  ({ st with txNext := (st.txNext + 1) % U32 },
   { header := pack sn st.snLenBits, payload := sdu, count := st.txNext })

/-- Modelled from the spec: draining of the reordering buffer (spec
sections 4.1 and 4.4): starting at RX_DELIV, repeatedly remove and deliver
the buffered entry with COUNT = RX_DELIV and increment RX_DELIV (a 32-bit
counter), stopping at the first gap.  `fuel` bounds the iteration;
`write_pdu` passes the buffer size, which always suffices because every
step removes one buffered entry. -/
def drain : Nat → Nat → List (Nat × Sdu) →
    List (Nat × Sdu) × Nat × List (Nat × Sdu)
  | 0, r, buf => ([], r, buf)
  | fuel + 1, r, buf =>
    match buf.lookup r with
    | none => ([], r, buf)
    | some sdu =>
      match drain fuel ((r + 1) % U32) (buf.filter (fun p => p.1 != r)) with
      | (ds, rEnd, bufEnd) => ((r, sdu) :: ds, rEnd, bufEnd)

/-- Modelled from the spec: `pdcp_entity_nr::write_pdu` is declared in
`pdcp_entity_nr.h` but its implementation is missing; modelled from spec
section 4.1: derive COUNT from the received SN against RX_DELIV; if
COUNT < RX_DELIV or COUNT is already buffered, drop as duplicate (counted
for diagnostics only); otherwise verify integrity (the opaque Security
Context verdict is abstracted by `macOk`), and on MAC mismatch report
IntegrityFailure and change nothing; on success insert (COUNT, SDU), set
RX_NEXT = max(RX_NEXT, COUNT+1) and drain from RX_DELIV.  Returns the new
state, the delivered (COUNT, SDU) run in delivery order, and the
notifications surfaced upward. -/
def write_pdu (st : Entity) (sn : Nat) (payload : Sdu) (macOk : Bool) :
    Entity × List (Nat × Sdu) × List Notification :=
  let count := derive_count sn st.rxDeliv st.snLenBits
  if count < st.rxDeliv ∨ (st.buffer.lookup count).isSome then
    ({ st with dupDropCount := st.dupDropCount + 1 }, [], [])
  else if macOk = false then
    (st, [], [Notification.integrityFailure])
  else
    match drain ((count, payload) :: st.buffer).length st.rxDeliv
        ((count, payload) :: st.buffer) with
    | (ds, rEnd, bufEnd) =>
      ({ st with buffer := bufEnd,
                 rxNext := max st.rxNext ((count + 1) % U32),
                 rxDeliv := rEnd }, ds, [])

/-- The entity-level operations of spec section 4.1.  The Security Context
verdict for a received PDU is carried as the `macOk` field of `writePdu`. -/
inductive Op
  | writeSdu (sdu : Sdu)
  | writePdu (sn : Nat) (payload : Sdu) (macOk : Bool)
  | configSecurity
  | enableIntegrity
  | enableEncryption
  | reestablishOp
  | resetOp

/-- One entity operation, projected to the successor state. -/
def step (st : Entity) : Op → Entity
  | Op.writeSdu sdu => (write_sdu st sdu).1
  | Op.writePdu sn payload macOk => (write_pdu st sn payload macOk).1
  | Op.configSecurity => config_security st
  | Op.enableIntegrity => enable_integrity st
  | Op.enableEncryption => enable_encryption st
  | Op.reestablishOp => reestablish st
  | Op.resetOp => reset st

/-- Entity states reachable from a successful `init` by entity operations. -/
inductive Reachable : Entity → Prop
  | ofInit (lcid snLenBits : Nat) (st : Entity) :
      init lcid snLenBits = some st → Reachable st
  | ofStep (st : Entity) (op : Op) : Reachable st → Reachable (step st op)

/-- A successful lookup yields a member of the association list. -/
lemma mem_of_lookup {l : List (Nat × Sdu)} {k : Nat} {v : Sdu}
    (h : l.lookup k = some v) : (k, v) ∈ l := by
  induction l with
  | nil => simp at h
  | cons p l ih =>
    obtain ⟨k', v'⟩ := p
    by_cases hk : k = k'
    · subst hk
      rw [List.lookup_cons_self] at h
      cases h
      exact List.mem_cons_self _ _
    · have hb : (k == k') = false := by simp [hk]
      rw [List.lookup_cons, hb] at h
      exact List.mem_cons_of_mem _ (ih h)

/-- Removing the entries with key `r` does not change lookups at other
keys. -/
lemma lookup_filter_ne {l : List (Nat × Sdu)} {k r : Nat} (hk : k ≠ r) :
    (l.filter (fun p => p.1 != r)).lookup k = l.lookup k := by
  induction l with
  | nil => rfl
  | cons p l ih =>
    obtain ⟨k', v'⟩ := p
    by_cases hr : k' = r
    · subst hr
      rw [List.filter_cons_of_neg (by simp), List.lookup_cons]
      have : (k == k') = false := by simp [hk]
      rw [this]
      exact ih
    · rw [List.filter_cons_of_pos (by simpa using hr), List.lookup_cons,
        List.lookup_cons]
      cases hkk : k == k' with
      | true => rfl
      | false => exact ih

/-- Filtering out a present key strictly shrinks the association list. -/
lemma length_filter_lt {l : List (Nat × Sdu)} {r : Nat} {v : Sdu}
    (hmem : (r, v) ∈ l) :
    (l.filter (fun p => p.1 != r)).length < l.length := by
  have hle := List.length_filter_le (fun p => p.1 != r) l
  rcases Nat.lt_or_ge (l.filter (fun p => p.1 != r)).length l.length with h | h
  · exact h
  · exfalso
    have heq : (l.filter (fun p => p.1 != r)).length = l.length :=
      Nat.le_antisymm hle h
    have := List.filter_length_eq_length.mp heq (r, v) hmem
    simp at this

/-- Full characterisation of `drain` away from counter wrap: it returns the
maximal contiguous run of buffered COUNTs starting at `r`, advances the
delivery counter by the length of that run, leaves a gap at the new
counter, and every delivered pair was buffered. -/
lemma drain_spec : ∀ (fuel r : Nat) (buf : List (Nat × Sdu)),
    buf.length ≤ fuel → r + buf.length < U32 →
    ∃ ds bufEnd,
      drain fuel r buf = (ds, r + ds.length, bufEnd) ∧
      ds.map Prod.fst = List.range' r ds.length ∧
      bufEnd.lookup (r + ds.length) = none ∧
      ∀ p ∈ ds, buf.lookup p.1 = some p.2 := by
  intro fuel
  induction fuel with
  | zero =>
    intro r buf hlen hwrap
    have hnil : buf = [] := List.length_eq_zero.mp (Nat.le_zero.mp hlen)
    subst hnil
    exact ⟨[], [], rfl, rfl, rfl, by simp⟩
  | succ fuel ih =>
    intro r buf hlen hwrap
    cases hlu : buf.lookup r with
    | none =>
      refine ⟨[], buf, ?_, rfl, ?_, by simp⟩
      · simp [drain, hlu]
      · simpa using hlu
    | some sdu =>
      have hmem : (r, sdu) ∈ buf := mem_of_lookup hlu
      have hpos : 0 < buf.length := List.length_pos_of_mem hmem
      have hflt : (buf.filter (fun p => p.1 != r)).length < buf.length :=
        length_filter_lt hmem
      have hr1 : (r + 1) % U32 = r + 1 := Nat.mod_eq_of_lt (by omega)
      obtain ⟨ds, bufEnd, heq, hmap, hnone, hsrc⟩ :=
        ih (r + 1) (buf.filter (fun p => p.1 != r)) (by omega) (by omega)
      refine ⟨(r, sdu) :: ds, bufEnd, ?_, ?_, ?_, ?_⟩
      · simp only [drain, hlu, hr1, heq, List.length_cons, Prod.mk.injEq]
        exact ⟨trivial, by omega, trivial⟩
      · simp [List.range'_succ, hmap]
      · simp only [List.length_cons]
        have harith : r + (ds.length + 1) = r + 1 + ds.length := by omega
        rw [harith]
        exact hnone
      · intro p hp
        rcases List.mem_cons.mp hp with hp | hp
        · subst hp
          exact hlu
        · have hk : p.1 ∈ ds.map Prod.fst := List.mem_map_of_mem Prod.fst hp
          rw [hmap] at hk
          obtain ⟨i, _, hi⟩ := List.mem_range'.mp hk
          have hne : p.1 ≠ r := by omega
          rw [← lookup_filter_ne hne]
          exact hsrc p hp

/-- Scenario state of spec section 8: SN_LEN_BITS = 12, RX_DELIV = RX_NEXT
= 5000, empty reordering buffer. -/
def entA : Entity :=
  { lcid := 1, snLenBits := 12, windowSize := 2 ^ 11, txNext := 0,
    rxNext := 5000, rxDeliv := 5000, rxReord := 0, buffer := [],
    securityConfigured := true, integrityEnabled := true,
    encryptionEnabled := true, dupDropCount := 0 }

/-- First scenario arrival: SN 906 derives COUNT 5002 (buffered, no gap
closed). -/
def scen1 : Entity × List (Nat × Sdu) × List Notification :=
  write_pdu entA 906 [1] true

/-- Second scenario arrival: SN 905 derives COUNT 5001 (buffered). -/
def scen2 : Entity × List (Nat × Sdu) × List Notification :=
  write_pdu scen1.1 905 [2] true

/-- Third scenario arrival: SN 904 derives COUNT 5000, releasing
5000, 5001, 5002 in order. -/
def scen3 : Entity × List (Nat × Sdu) × List Notification :=
  write_pdu scen2.1 904 [3] true

/-- C2: a successfully verified, non-duplicate PDU is inserted, RX_NEXT is
raised to max(RX_NEXT, COUNT+1), and the drain delivers exactly the maximal
contiguous run of buffered COUNTs starting at RX_DELIV, in strictly
increasing COUNT order (consecutive COUNTs from RX_DELIV), advancing
RX_DELIV once per delivered entry and stopping at the first gap; in
particular arrivals with COUNTs 5002, 5001, 5000 at rxDeliv = 5000 are
delivered as 5000, 5001, 5002 with final rxDeliv = 5003. -/
theorem write_pdu_in_order_delivery (st : Entity) (sn : Nat) (payload : Sdu)
    (hdup : ¬(derive_count sn st.rxDeliv st.snLenBits < st.rxDeliv ∨
        (st.buffer.lookup (derive_count sn st.rxDeliv st.snLenBits)).isSome))
    (hwrap : st.rxDeliv + st.buffer.length + 1 < U32) :
    (∃ ds bufEnd,
      write_pdu st sn payload true =
        ({ st with
             buffer := bufEnd
             rxNext := max st.rxNext
               ((derive_count sn st.rxDeliv st.snLenBits + 1) % U32)
             rxDeliv := st.rxDeliv + ds.length }, ds, []) ∧
      ds.map Prod.fst = List.range' st.rxDeliv ds.length ∧
      bufEnd.lookup (st.rxDeliv + ds.length) = none ∧
      ∀ p ∈ ds,
        ((derive_count sn st.rxDeliv st.snLenBits, payload) ::
            st.buffer).lookup p.1 = some p.2) ∧
    ((scen1.2.1 ++ scen2.2.1 ++ scen3.2.1).map Prod.fst = [5000, 5001, 5002] ∧
      scen3.1.rxDeliv = 5003) := by
  constructor
  · obtain ⟨ds, bufEnd, heq, hmap, hnone, hsrc⟩ :=
      drain_spec
        ((derive_count sn st.rxDeliv st.snLenBits, payload) :: st.buffer).length
        st.rxDeliv
        ((derive_count sn st.rxDeliv st.snLenBits, payload) :: st.buffer)
        Nat.le.refl (by simp only [List.length_cons]; omega)
    refine ⟨ds, bufEnd, ?_, hmap, hnone, hsrc⟩
    simp only [write_pdu, if_neg hdup, if_neg (by simp : ¬(true = false)), heq]
  · exact ⟨by decide, by decide⟩

/-- Witness for C2 at the scenario state with SN 904 (COUNT 5000). -/
theorem write_pdu_in_order_delivery_witness :
    (∃ ds bufEnd,
      write_pdu entA 904 [9] true =
        ({ entA with
             buffer := bufEnd
             rxNext := max entA.rxNext
               ((derive_count 904 entA.rxDeliv entA.snLenBits + 1) % U32)
             rxDeliv := entA.rxDeliv + ds.length }, ds, []) ∧
      ds.map Prod.fst = List.range' entA.rxDeliv ds.length ∧
      bufEnd.lookup (entA.rxDeliv + ds.length) = none ∧
      ∀ p ∈ ds,
        ((derive_count 904 entA.rxDeliv entA.snLenBits, [9]) ::
            entA.buffer).lookup p.1 = some p.2) ∧
    ((scen1.2.1 ++ scen2.2.1 ++ scen3.2.1).map Prod.fst = [5000, 5001, 5002] ∧
      scen3.1.rxDeliv = 5003) :=
  write_pdu_in_order_delivery entA 904 [9] (by decide) (by decide)

/-- C3: a non-duplicate PDU whose MAC verification fails produces exactly
one IntegrityFailure notification, delivers nothing upward, and leaves the
entity state (RX_DELIV, RX_NEXT, reordering buffer, and every other field)
exactly unchanged. -/
theorem write_pdu_integrity_failure_isolated (st : Entity) (sn : Nat)
    (payload : Sdu)
    (hdup : ¬(derive_count sn st.rxDeliv st.snLenBits < st.rxDeliv ∨
        (st.buffer.lookup (derive_count sn st.rxDeliv st.snLenBits)).isSome)) :
    write_pdu st sn payload false = (st, [], [Notification.integrityFailure]) := by
  simp [write_pdu, if_neg hdup]

/-- Witness for C3 at the scenario state with SN 906 (COUNT 5002). -/
theorem write_pdu_integrity_failure_isolated_witness :
    write_pdu entA 906 [7] false = (entA, [], [Notification.integrityFailure]) :=
  write_pdu_integrity_failure_isolated entA 906 [7] (by decide)

/-- C4: a PDU whose derived COUNT is below RX_DELIV or already buffered is
dropped as a duplicate: only the diagnostic drop counter changes, nothing
is delivered or notified, and RX_DELIV, RX_NEXT and the buffer are exactly
as before. -/
theorem write_pdu_duplicate_drop (st : Entity) (sn : Nat) (payload : Sdu)
    (macOk : Bool)
    (hdup : derive_count sn st.rxDeliv st.snLenBits < st.rxDeliv ∨
        (st.buffer.lookup (derive_count sn st.rxDeliv st.snLenBits)).isSome) :
    write_pdu st sn payload macOk =
      ({ st with dupDropCount := st.dupDropCount + 1 }, [], []) := by
  simp only [write_pdu, if_pos hdup]

/-- Witness for C4 at the scenario state with SN 903 (COUNT 4999 < 5000). -/
theorem write_pdu_duplicate_drop_witness :
    write_pdu entA 903 [7] true =
      ({ entA with dupDropCount := entA.dupDropCount + 1 }, [], []) :=
  write_pdu_duplicate_drop entA 903 [7] true (by decide)

/-- C6: reestablish zeroes TX_NEXT, RX_NEXT, RX_DELIV and RX_REORD, empties
the reordering buffer, and retains lcid and the static configuration
(SN length and window_size), for every prior state. -/
theorem reestablish_resets (st : Entity) :
    (reestablish st).txNext = 0 ∧ (reestablish st).rxNext = 0 ∧
    (reestablish st).rxDeliv = 0 ∧ (reestablish st).rxReord = 0 ∧
    (reestablish st).buffer = [] ∧ (reestablish st).lcid = st.lcid ∧
    (reestablish st).snLenBits = st.snLenBits ∧
    (reestablish st).windowSize = st.windowSize := by
  simp [reestablish]

/-- No write_pdu path changes TX_NEXT. -/
lemma write_pdu_tx_next (st : Entity) (sn : Nat) (payload : Sdu)
    (macOk : Bool) : (write_pdu st sn payload macOk).1.txNext = st.txNext := by
  simp only [write_pdu]
  split_ifs
  · rfl
  · rfl
  · rfl

/-- C5: write_sdu puts SN = TX_NEXT mod 2^SN_LEN_BITS on the wire (the
header codec recovers exactly that value) and increments TX_NEXT by exactly
one modulo 2^32; reestablish resets TX_NEXT to 0, and every other operation
leaves TX_NEXT unchanged, so TX_NEXT advances one step per transmitted SDU
and never decreases except on reestablish. -/
theorem write_sdu_sn_and_tx_next (st : Entity) (sdu : Sdu)
    (hbits : st.snLenBits = 12 ∨ st.snLenBits = 18) :
    unpack (write_sdu st sdu).2.header = st.txNext % 2 ^ st.snLenBits ∧
    (write_sdu st sdu).1.txNext = (st.txNext + 1) % U32 ∧
    (step st Op.reestablishOp).txNext = 0 ∧
    ∀ op : Op, (∀ s, op ≠ Op.writeSdu s) → op ≠ Op.reestablishOp →
      (step st op).txNext = st.txNext := by
  refine ⟨?_, rfl, rfl, ?_⟩
  · exact unpack_pack_eq _ _ hbits (Nat.mod_lt _ (by positivity))
  · intro op hws hre
    cases op with
    | writeSdu s => exact absurd rfl (hws s)
    | writePdu sn payload macOk => exact write_pdu_tx_next st sn payload macOk
    | configSecurity => rfl
    | enableIntegrity =>
      show (enable_integrity st).txNext = st.txNext
      unfold enable_integrity
      split <;> rfl
    | enableEncryption =>
      show (enable_encryption st).txNext = st.txNext
      unfold enable_encryption
      split <;> rfl
    | reestablishOp => exact absurd rfl hre
    | resetOp => rfl

/-- Witness for C5 at the scenario state entA with a 2-byte SDU. -/
theorem write_sdu_sn_and_tx_next_witness :
    unpack (write_sdu entA [1, 2]).2.header = entA.txNext % 2 ^ entA.snLenBits ∧
    (write_sdu entA [1, 2]).1.txNext = (entA.txNext + 1) % U32 ∧
    (step entA Op.reestablishOp).txNext = 0 ∧
    ∀ op : Op, (∀ s, op ≠ Op.writeSdu s) → op ≠ Op.reestablishOp →
      (step entA op).txNext = entA.txNext :=
  write_sdu_sn_and_tx_next entA [1, 2] (Or.inl rfl)

/-- The receive-side invariant: RX_DELIV never exceeds RX_NEXT, RX_NEXT is a
32-bit value, and every buffered COUNT is below RX_NEXT except possibly the
COUNT-space maximum 2^32 - 1 (whose successor wraps to 0). -/
def Inv (st : Entity) : Prop :=
  st.rxDeliv ≤ st.rxNext ∧ st.rxNext < U32 ∧
    ∀ p ∈ st.buffer, p.1 < st.rxNext ∨ p.1 = U32 - 1

/-- Draining never pushes the delivery counter past a bound dominating every
buffered COUNT, and only removes entries from the buffer. -/
lemma drain_le : ∀ (fuel r : Nat) (buf : List (Nat × Sdu)) (n : Nat),
    r ≤ n → n < U32 → (∀ p ∈ buf, p.1 < n ∨ p.1 = U32 - 1) →
    (drain fuel r buf).2.1 ≤ n ∧
      ∀ p ∈ (drain fuel r buf).2.2, p.1 < n ∨ p.1 = U32 - 1 := by
  intro fuel
  induction fuel with
  | zero => intro r buf n hr hn hbuf; exact ⟨hr, hbuf⟩
  | succ fuel ih =>
    intro r buf n hr hn hbuf
    cases hlu : buf.lookup r with
    | none =>
      simp only [drain, hlu]
      exact ⟨hr, hbuf⟩
    | some sdu =>
      have hmem := mem_of_lookup hlu
      have hr' : (r + 1) % U32 ≤ n := by
        rcases hbuf _ hmem with h | h
        · rw [Nat.mod_eq_of_lt (by omega)]
          omega
        · have hU : r + 1 = U32 := by
            have : (0 : Nat) < U32 := by norm_num [U32]
            omega
          rw [hU, Nat.mod_self]
          omega
      have hbuf' : ∀ p ∈ buf.filter (fun p => p.1 != r),
          p.1 < n ∨ p.1 = U32 - 1 :=
        fun p hp => hbuf p (List.mem_of_mem_filter hp)
      have hrec := ih ((r + 1) % U32) (buf.filter (fun p => p.1 != r)) n
        hr' hn hbuf'
      simp only [drain, hlu]
      exact hrec

/-- The first delivered pair of any drain run carries the start counter. -/
lemma drain_head : ∀ (fuel r : Nat) (buf : List (Nat × Sdu)) (p : Nat × Sdu),
    (drain fuel r buf).1.head? = some p → p.1 = r := by
  intro fuel r buf p h
  cases fuel with
  | zero => simp [drain] at h
  | succ fuel =>
    cases hlu : buf.lookup r with
    | none => simp [drain, hlu] at h
    | some sdu =>
      simp only [drain, hlu, List.head?_cons] at h
      cases h
      rfl

/-- Deliveries of `write_pdu` always start at the pre-state RX_DELIV. -/
lemma write_pdu_head_frontier (st : Entity) (sn : Nat) (payload : Sdu)
    (macOk : Bool) (p : Nat × Sdu)
    (hp : (write_pdu st sn payload macOk).2.1.head? = some p) :
    p.1 = st.rxDeliv := by
  revert hp
  simp only [write_pdu]
  split_ifs with hd hm
  · intro hp; simp at hp
  · intro hp; simp at hp
  · intro hp
    exact drain_head _ _ _ p hp

/-- A successful init establishes the receive-side invariant. -/
lemma inv_init (lcid snLenBits : Nat) (st : Entity)
    (h : init lcid snLenBits = some st) : Inv st := by
  unfold init at h
  split at h
  · cases h
    refine ⟨Nat.le_refl 0, by norm_num [U32], ?_⟩
    intro p hp
    simp at hp
  · cases h

/-- Every entity operation preserves the receive-side invariant. -/
lemma inv_step (st : Entity) (op : Op) (h : Inv st) : Inv (step st op) := by
  obtain ⟨h1, h2, h3⟩ := h
  cases op with
  | writeSdu sdu => exact ⟨h1, h2, h3⟩
  | configSecurity => exact ⟨h1, h2, h3⟩
  | resetOp => exact ⟨h1, h2, h3⟩
  | enableIntegrity =>
    show Inv (enable_integrity st)
    unfold enable_integrity
    split <;> exact ⟨h1, h2, h3⟩
  | enableEncryption =>
    show Inv (enable_encryption st)
    unfold enable_encryption
    split <;> exact ⟨h1, h2, h3⟩
  | reestablishOp =>
    refine ⟨Nat.le_refl 0, (by norm_num [U32] : (0 : Nat) < U32), ?_⟩
    intro p hp
    simp [step, reestablish] at hp
  | writePdu sn payload macOk =>
    show Inv (write_pdu st sn payload macOk).1
    simp only [write_pdu]
    split_ifs with hd hm
    · exact ⟨h1, h2, h3⟩
    · exact ⟨h1, h2, h3⟩
    · have hclt : derive_count sn st.rxDeliv st.snLenBits < U32 :=
        Nat.mod_lt _ (by norm_num [U32])
      have hsucc : (derive_count sn st.rxDeliv st.snLenBits + 1) % U32 < U32 :=
        Nat.mod_lt _ (by norm_num [U32])
      have hn' : max st.rxNext
          ((derive_count sn st.rxDeliv st.snLenBits + 1) % U32) < U32 :=
        Nat.max_lt.mpr ⟨h2, hsucc⟩
      have hr' : st.rxDeliv ≤ max st.rxNext
          ((derive_count sn st.rxDeliv st.snLenBits + 1) % U32) :=
        Nat.le_trans h1 (Nat.le_max_left _ _)
      have hbuf' : ∀ p ∈ (derive_count sn st.rxDeliv st.snLenBits, payload) ::
          st.buffer,
          p.1 < max st.rxNext
            ((derive_count sn st.rxDeliv st.snLenBits + 1) % U32) ∨
            p.1 = U32 - 1 := by
        intro p hp
        rcases List.mem_cons.mp hp with heq | hp
        · subst heq
          by_cases hce : derive_count sn st.rxDeliv st.snLenBits = U32 - 1
          · exact Or.inr hce
          · left
            have hmod : (derive_count sn st.rxDeliv st.snLenBits + 1) % U32 =
                derive_count sn st.rxDeliv st.snLenBits + 1 :=
              Nat.mod_eq_of_lt (by omega)
            have := Nat.le_max_right st.rxNext
              ((derive_count sn st.rxDeliv st.snLenBits + 1) % U32)
            omega
        · rcases h3 p hp with hlt | he
          · exact Or.inl (Nat.lt_of_lt_of_le hlt (Nat.le_max_left _ _))
          · exact Or.inr he
      have hrec := drain_le
        (((derive_count sn st.rxDeliv st.snLenBits, payload) ::
          st.buffer).length)
        st.rxDeliv
        ((derive_count sn st.rxDeliv st.snLenBits, payload) :: st.buffer)
        (max st.rxNext
          ((derive_count sn st.rxDeliv st.snLenBits + 1) % U32))
        hr' hn' hbuf'
      exact ⟨hrec.1, hn', hrec.2⟩

/-- C7: in every reachable entity state RX_DELIV does not exceed RX_NEXT,
and RX_DELIV marks the delivery frontier: any delivery batch produced by
write_pdu from such a state begins exactly at RX_DELIV, the first COUNT not
yet delivered upward.  The invariant holds after init and is preserved by
write_sdu, write_pdu, config_security, enable_integrity, enable_encryption,
reestablish and reset. -/
theorem rx_deliv_le_rx_next_invariant (st : Entity) (h : Reachable st) :
    st.rxDeliv ≤ st.rxNext ∧
      ∀ sn payload macOk p,
        (write_pdu st sn payload macOk).2.1.head? = some p →
          p.1 = st.rxDeliv := by
  have hInv : Inv st := by
    induction h with
    | ofInit lcid snLenBits st' h0 => exact inv_init lcid snLenBits st' h0
    | ofStep st' op _ ih => exact inv_step st' op ih
  exact ⟨hInv.1, fun sn payload macOk p hp =>
    write_pdu_head_frontier st sn payload macOk p hp⟩

/-- Freshly initialised entity on lcid 1 with 12-bit sequence numbers. -/
def ent0 : Entity :=
  { lcid := 1, snLenBits := 12, windowSize := 2 ^ 11, txNext := 0,
    rxNext := 0, rxDeliv := 0, rxReord := 0, buffer := [],
    securityConfigured := false, integrityEnabled := false,
    encryptionEnabled := false, dupDropCount := 0 }

/-- `ent0` is what init returns on lcid 1 with 12-bit sequence numbers. -/
lemma init_ent0 : init 1 12 = some ent0 := rfl

/-- `ent0` is reachable. -/
lemma reachable_ent0 : Reachable ent0 :=
  Reachable.ofInit 1 12 ent0 init_ent0

/-- Witness for C7 at the freshly initialised entity. -/
theorem rx_deliv_le_rx_next_invariant_witness :
    ent0.rxDeliv ≤ ent0.rxNext ∧
      ∀ sn payload macOk p,
        (write_pdu ent0 sn payload macOk).2.1.head? = some p →
          p.1 = ent0.rxDeliv :=
  rx_deliv_le_rx_next_invariant ent0 reachable_ent0

end PdcpNr

namespace Srslog

/-- Formatting metadata of a log entry (`detail::log_entry_metadata`):
`small_str` holds an already-formatted string whose presence makes
`process_log_entry` use it as the fmtstring (backend_worker.cpp lines
103-106). -/
structure EntryMetadata where
  smallStr : List Nat
  fmtstring : List Nat
  deriving Repr, DecidableEq

/-- A flush command (`detail::flush_backend_cmd`): the sinks registered in
the command and the completion flag the caller thread waits on. -/
structure FlushCmd where
  sinks : List Nat
  completionFlag : Bool
  deriving Repr, DecidableEq

/-- A queued log entry (`detail::log_entry`): an optional flush command and,
for ordinary entries, the metadata and the destination sink. -/
structure LogEntry where
  flushCmd : Option FlushCmd
  metadata : EntryMetadata
  sinkId : Nat
  deriving Repr, DecidableEq

/-- Observable actions of the backend worker on its collaborators:
`sinkFlush s` is `sink->flush()` on sink `s`; `completionSet` is the write
of `cmd.completion_flag = true`; `formatWrite s m` is the formatting of
metadata `m` (via the external `format_func`) followed by the write of the
formatted buffer to sink `s`. -/
inductive Effect
  | sinkFlush (sinkId : Nat)
  | completionSet
  | formatWrite (sinkId : Nat) (meta : EntryMetadata)
  deriving Repr, DecidableEq

/-- `process_flush_command` (backend_worker.cpp lines 82-90): flush every
sink registered in the command, then set the completion flag.  Returns the
updated command and the trace of actions. -/
def process_flush_command (cmd : FlushCmd) : FlushCmd × List Effect :=
  ({ cmd with completionFlag := true },
   (cmd.sinks.map Effect.sinkFlush) ++ [Effect.completionSet])

/-- The small-string override of `process_log_entry` (lines 103-106): a
nonempty `small_str` becomes the fmtstring handed to the formatter. -/
def transform_metadata (m : EntryMetadata) : EntryMetadata :=
  if m.smallStr.length ≠ 0 then { m with fmtstring := m.smallStr } else m

/-- `backend_worker::process_log_entry` (backend_worker.cpp lines 92-118):
flush commands are processed by `process_flush_command` and the function
returns at once; ordinary entries are formatted (after the small-string
override) and written to their sink.  Returns the updated flush command,
when there was one, and the trace of actions. -/
def process_log_entry (e : LogEntry) : Option FlushCmd × List Effect :=
  match e.flushCmd with
  | some cmd =>
    match process_flush_command cmd with
    | (cmd', effs) => (some cmd', effs)
  | none => (none, [Effect.formatWrite e.sinkId (transform_metadata e.metadata)])

/-- `queue.timed_pop` in the single-consumer shutdown regime: reports
failure exactly when the queue is empty, else yields the oldest entry. -/
def timed_pop (q : List LogEntry) : Option LogEntry × List LogEntry :=
  match q with
  | [] => (none, [])
  | e :: es => (some e, es)

/-- The pop-process loop of `process_outstanding_entries` (lines 124-133),
with fuel bounding the iteration count; each successful pop removes one
entry, so fuel = queue length always suffices. -/
def process_outstanding_loop : Nat → List LogEntry → List Effect × List LogEntry
  | 0, q => ([], q)
  | fuel + 1, q =>
    match timed_pop q with
    | (none, qRest) => ([], qRest)
    | (some e, qRest) =>
      match process_outstanding_loop fuel qRest with
      | (effs, qEnd) => ((process_log_entry e).2 ++ effs, qEnd)

/-- `backend_worker::process_outstanding_entries` (backend_worker.cpp lines
120-134): asserts that the worker loop has stopped (`running = false`,
modelled as `none` on violation), then repeatedly pops the queue and
processes each popped entry until a pop reports the queue empty. -/
def process_outstanding_entries (running : Bool) (q : List LogEntry) :
    Option (List Effect × List LogEntry) :=
  if running then none
  else some (process_outstanding_loop q.length q)

/-- Per-entry traces of a queue, in queue order. -/
def queue_effects (q : List LogEntry) : List Effect :=
  (q.map (fun e => (process_log_entry e).2)).flatten

/-- The loop processes every queued entry, in order, and empties the
queue. -/
lemma process_outstanding_loop_spec :
    ∀ q : List LogEntry,
      process_outstanding_loop q.length q = (queue_effects q, []) := by
  intro q
  induction q with
  | nil => rfl
  | cons e q ih =>
    simp only [List.length_cons, process_outstanding_loop, timed_pop, ih,
      queue_effects, List.map_cons, List.flatten_cons]

/-- C9: once the worker main loop has exited (running flag false),
`process_outstanding_entries` repeatedly pops the queue and processes each
popped entry until a pop reports the queue empty: the produced trace is the
concatenation of the per-entry processing traces in queue order and the
final queue is empty, so no entry still queued at shutdown is left
unprocessed. -/
theorem process_outstanding_entries_drains_queue (running : Bool)
    (q : List LogEntry) (hrun : running = false) :
    process_outstanding_entries running q = some (queue_effects q, []) := by
  subst hrun
  simp only [process_outstanding_entries, Bool.false_eq_true, if_false,
    process_outstanding_loop_spec]

/-- A queued flush command over sinks 0 and 1. -/
def entryFlush : LogEntry :=
  { flushCmd := some { sinks := [0, 1], completionFlag := false },
    metadata := { smallStr := [], fmtstring := [] }, sinkId := 0 }

/-- An ordinary queued log entry for sink 2. -/
def entryText : LogEntry :=
  { flushCmd := none,
    metadata := { smallStr := [7], fmtstring := [] }, sinkId := 2 }

/-- Witness for C9 on a two-entry queue at shutdown. -/
theorem process_outstanding_entries_drains_queue_witness :
    process_outstanding_entries false [entryFlush, entryText] =
      some (queue_effects [entryFlush, entryText], []) :=
  process_outstanding_entries_drains_queue false [entryFlush, entryText] rfl

/-- C10: a log entry carrying a flush command makes `process_log_entry`
flush each sink registered in the command (in order), set the command's
completion flag to true, and return without any formatting or sink write:
the trace holds no `formatWrite` action. -/
theorem process_log_entry_flush_path (e : LogEntry) (cmd : FlushCmd)
    (h : e.flushCmd = some cmd) :
    process_log_entry e =
      (some { cmd with completionFlag := true },
       cmd.sinks.map Effect.sinkFlush ++ [Effect.completionSet]) ∧
    ∀ s m, Effect.formatWrite s m ∉ (process_log_entry e).2 := by
  have heq : process_log_entry e =
      (some { cmd with completionFlag := true },
       cmd.sinks.map Effect.sinkFlush ++ [Effect.completionSet]) := by
    simp [process_log_entry, h, process_flush_command]
  refine ⟨heq, ?_⟩
  intro s m hmem
  rw [heq] at hmem
  simp at hmem

/-- Witness for C10 at the queued flush command over sinks 0 and 1. -/
theorem process_log_entry_flush_path_witness :
    process_log_entry entryFlush =
      (some { sinks := [0, 1], completionFlag := true },
       [0, 1].map Effect.sinkFlush ++ [Effect.completionSet]) ∧
    ∀ s m, Effect.formatWrite s m ∉ (process_log_entry entryFlush).2 :=
  process_log_entry_flush_path entryFlush
    { sinks := [0, 1], completionFlag := false } rfl

end Srslog
